import Mathlib

/-!
# Prompt-engineering tracker: event-logging subsystem, shallow embedding

The repository's core component (the `ChainLogCallback` in `src/chain_log_callback.py`)
is not present in the sources available here; only the two sample notebooks and the
README are.  Every definition below is therefore modelled from the specification's
words (§2–§7 of the spec): the Event Record Model, the Run State Tracker, the Field
Extractor, the Feedback Collector and the Persistence Sink, together with the event
stream the orchestration graph feeds them.
-/

namespace ChainLog

/-- Modelled from the spec: `inputs` is an "ordered mapping of field name → value,
where field names are dynamically discovered" (§3).  Represented as an association
list whose key order is first-seen order. -/
abbrev Fields := List (String × String)

/-- Look a field up by name (first binding wins, as in a mapping with unique keys). -/
def lookupField (k : String) (fs : Fields) : Option String :=
  List.lookup k fs

/-- The value of the LAST binding of a key in a raw field list, used to phrase the
"last write wins" merge policy. -/
def lookupLast (k : String) : Fields → Option String
  | [] => none
  | (k', v) :: fs =>
    match lookupLast k fs with
    | some w => some w
    | none => if k' = k then some v else none

/-- Write one field under "last write wins per field name, union across field names"
(§4.1): an existing binding is overwritten in place (keeping first-seen key order),
a new name is appended at the end. -/
def setField (fs : Fields) (k v : String) : Fields :=
  match fs with
  | [] => [(k, v)]
  | (k', v') :: rest => if k' = k then (k', v) :: rest else (k', v') :: setField rest k v

/-- Modelled from the spec: merge newly extracted fields into an accumulator "under
policy last write wins per field name, union across field names" (§4.1). -/
def mergeFields (old new : Fields) : Fields :=
  new.foldl (fun acc kv => setField acc kv.1 kv.2) old

/-- Modelled from the spec (§9 design note): the heterogeneous duck-typed event
payloads are represented "as a tagged variant per recognized step kind, with an
explicit unrecognized variant carrying the raw opaque payload".  The recognized
shapes are the four of §4.2. -/
inductive Payload where
  | modelStart (modelId : String) (params : Fields) (prompt : String)
  | chainStart (raw : Fields)
  | retrievalEnd (passages : List String)
  | chainEnd (output : String)
  | unrecognized (raw : Fields)
deriving Repr, DecidableEq

/-- Modelled from the spec: the Field Extractor, a "pure function from (step_kind,
payload) to a mapping of discovered field names to values" (§4.2).  A model-start
payload yields the model identifier, the flat decoding-parameter mapping and the
prompt text; a chain-start payload yields the raw user input keyed by the
configurable `input_keyword`; a retrieval-end payload yields the concatenated
retrieved passages as a single text field; unknown shapes "return an empty mapping
rather than failing". -/
def extractFields (inputKeyword : String) : Payload → Fields
  | .modelStart modelId params prompt =>
      ("model_id", modelId) :: params ++ [("prompt_template", prompt)]
  | .chainStart raw =>
      match List.lookup inputKeyword raw with
      | some v => [(inputKeyword, v)]
      | none => []
  | .retrievalEnd passages => [("context", String.intercalate " " passages)]
  | .chainEnd _ => []
  | .unrecognized _ => []

/-- Modelled from the spec: the output an end event carries, if any — "a chain-end
payload: extract the final output text" (§4.2); a retrieval step's result text
plays that role for an independently persisted retrieval record.  Start payloads
and unrecognized payloads carry no output. -/
def extractOutput : Payload → Option String
  | .chainEnd out => some out
  | .retrievalEnd passages => some (String.intercalate " " passages)
  | _ => none

/-- Modelled from the spec: the recognized configuration options (§6).  The README
documents that `combine_all_actions_into_one_log` defaults to `True` when not
supplied at construction. -/
structure Config where
  output_csv : Bool
  request_rating : Bool
  request_comments : Bool
  user_name : String
  experiment_name : String
  path : String
  input_keyword : String
  combine_all_actions_into_one_log : Bool := true
deriving Repr, DecidableEq

/-- Modelled from the spec: one Record, "one row of the log, one per completed
top-level execution (or, when configured, one per sub-step)" (§3). -/
structure Record where
  timestamp : Nat
  inputs : Fields
  output : String
  rating : Option String
  comments : Option String
deriving Repr, DecidableEq

/-- The human operator on the process's interactive channel: what they would answer
if prompted for a rating or for comments. -/
structure HumanEnv where
  rating : String
  comments : String
deriving Repr, DecidableEq

/-- Modelled from the spec: the Feedback Collector (§4.3) — returns the rating and
comments (absent when the corresponding flag is disabled) together with the number
of blocking human prompts issued (one per enabled flag, zero interaction when both
flags are false). -/
def collectFeedback (cfg : Config) (human : HumanEnv) :
    Option String × Option String × Nat :=
  ((if cfg.request_rating then some human.rating else none),
   (if cfg.request_comments then some human.comments else none),
   (if cfg.request_rating then 1 else 0) + (if cfg.request_comments then 1 else 0))

/-- Modelled from the spec: the flat file the Persistence Sink appends to.
`inputCols` is the dynamically discovered input-column set in first-seen order;
the rendered header is derived by `CsvFile.header`.  Rows are stored as rendered
cell lists: earlier rows are not rewritten when the header widens (§4.4). -/
structure CsvFile where
  inputCols : List String
  rows : List (List String)
deriving Repr, DecidableEq

/-- Modelled from the spec: the header row — "columns = timestamp, dynamically
discovered input field names (stable ordering: first-seen order), output, rating,
comments" (§6). -/
def CsvFile.header (f : CsvFile) : List String :=
  "timestamp" :: (f.inputCols ++ ["output", "rating", "comments"])

/-- Widen a column list with any not-yet-seen field names of a record, preserving
first-seen order (§4.4 header widening policy). -/
def widenCols (cols : List String) (fs : Fields) : List String :=
  fs.foldl (fun cs kv => if cs.contains kv.1 then cs else cs ++ [kv.1]) cols

/-- Render one Record as a row under a given input-column list: timestamp first,
then one cell per input column (empty when the record lacks the field), then
output, rating, comments. -/
def rowFor (cols : List String) (r : Record) : List String :=
  toString r.timestamp ::
    (cols.map (fun k => (lookupField k r.inputs).getD "")
      ++ [r.output, r.rating.getD "", r.comments.getD ""])

/-- Modelled from the spec: the successful-append path of the sink — "if the file
does not exist, it is created with a header row matching the field set of the first
Record"; otherwise the header is widened and the new row appended, existing rows
untouched (§4.4). -/
def appendToFile (file : Option CsvFile) (r : Record) : CsvFile :=
  match file with
  | none =>
      let cols := widenCols [] r.inputs
      ⟨cols, [rowFor cols r]⟩
  | some f =>
      let cols := widenCols f.inputCols r.inputs
      ⟨cols, f.rows ++ [rowFor cols r]⟩

/-- Modelled from the spec: the Persistence Sink's `append` (§4.4).  When
`output_csv` is false it is a no-op; otherwise it appends, and an environmental
I/O failure (modelled by `sinkOk = false`) surfaces as an error. -/
def sinkAppend (cfg : Config) (sinkOk : Bool) (file : Option CsvFile) (r : Record) :
    Except String (Option CsvFile) :=
  if cfg.output_csv then
    if sinkOk then .ok (some (appendToFile file r))
    else .error "persistence failure"
  else .ok file

/-- Modelled from the spec: a RunAccumulator, "mutable, one per in-flight execution,
keyed by a run identifier assigned by the orchestration graph" (§3), carrying an
explicit parent link for nested sub-runs (§9 prefers explicit identifiers). -/
structure RunAccumulator where
  runId : Nat
  parent : Option Nat
  fields : Fields
deriving Repr, DecidableEq

/-- The tracker's whole observable state: the live accumulators, the list of Records
handed to the sink so far (paired with the run identifier that produced each), the
sink's file, a logical clock for timestamps, and the running count of blocking
human prompts issued. -/
structure LogState where
  accs : List RunAccumulator
  persisted : List (Nat × Record)
  file : Option CsvFile
  clock : Nat
  promptCount : Nat
deriving Repr, DecidableEq

def initState : LogState := ⟨[], [], none, 0, 0⟩

def findAcc (rid : Nat) (accs : List RunAccumulator) : Option RunAccumulator :=
  accs.find? (fun a => a.runId == rid)

def updateAcc (accs : List RunAccumulator) (rid : Nat)
    (f : RunAccumulator → RunAccumulator) : List RunAccumulator :=
  accs.map (fun a => if a.runId == rid then f a else a)

def removeAcc (accs : List RunAccumulator) (rid : Nat) : List RunAccumulator :=
  accs.filter (fun a => a.runId != rid)

/-- Follow parent links up to the top-level ancestor (fuel-bounded walk; strict
nesting per §5 means the chain is finite). -/
def rootOf (accs : List RunAccumulator) : Nat → Nat → Nat
  | 0, rid => rid
  | fuel + 1, rid =>
    match findAcc rid accs with
    | some a =>
      match a.parent with
      | some p => rootOf accs fuel p
      | none => rid
    | none => rid

/-- Modelled from the spec: `on_step_start(run_id, step_kind, payload)` "looks up or
creates the RunAccumulator for run_id; delegates to the Field Extractor for
(step_kind, payload) and merges resulting fields into the accumulator" (§4.1). -/
def onStepStart (cfg : Config) (s : LogState) (rid : Nat) (parent : Option Nat)
    (p : Payload) : LogState :=
  let fs := extractFields cfg.input_keyword p
  let accs :=
    match findAcc rid s.accs with
    | some _ => updateAcc s.accs rid (fun a => { a with fields := mergeFields a.fields fs })
    | none => s.accs ++ [⟨rid, parent, mergeFields [] fs⟩]
  { s with accs := accs, clock := s.clock + 1 }

/-- Modelled from the spec: finalization "builds a Record from the accumulated fields
plus this step's output field, optionally invokes the Feedback Collector
synchronously" (§4.1); the timestamp is set at finalization (§3).  Returns the
Record and the number of blocking prompts the collection issued. -/
def finalizeRecord (cfg : Config) (human : HumanEnv) (clock : Nat) (fields : Fields)
    (out : String) : Record × Nat :=
  let fb := collectFeedback cfg human
  (⟨clock, fields, out, fb.1, fb.2.1⟩, fb.2.2)

/-- The finalization path of the terminal-event handler (§4.1, §7): a Record is
built and handed to the sink only when the end event carries an output (§3
invariants); the accumulator is removed even when the sink fails, and a sink
failure propagates to the caller as the returned error. -/
def finalizeRun (cfg : Config) (sinkOk : Bool) (human : HumanEnv) (s : LogState)
    (rid : Nat) (fields : Fields) (p : Payload) : LogState × Option String :=
  match extractOutput p with
  | none => ({ s with accs := removeAcc s.accs rid, clock := s.clock + 1 }, none)
  | some out =>
    match sinkAppend cfg sinkOk s.file (finalizeRecord cfg human s.clock fields out).1 with
    | .ok file' =>
      ({ s with
          accs := removeAcc s.accs rid,
          persisted := s.persisted ++ [(rid, (finalizeRecord cfg human s.clock fields out).1)],
          file := file',
          clock := s.clock + 1,
          promptCount := s.promptCount + (finalizeRecord cfg human s.clock fields out).2 }, none)
    | .error e =>
      ({ s with
          accs := removeAcc s.accs rid,
          clock := s.clock + 1,
          promptCount := s.promptCount + (finalizeRecord cfg human s.clock fields out).2 }, some e)

/-- Modelled from the spec: `on_step_end(run_id, step_kind, payload, is_terminal)`
(§4.1, §7).  A terminal event for an identifier with no live accumulator is an
ignorable no-op.  Otherwise the end payload's fields are merged ("same merge");
on a terminal event, a nested sub-run under `combine_all_actions_into_one_log`
merges its accumulator into its top-level ancestor's instead of being finalized
independently, while every other terminal run is finalized via `finalizeRun`. -/
def onStepEnd (cfg : Config) (sinkOk : Bool) (human : HumanEnv) (s : LogState)
    (rid : Nat) (p : Payload) (isTerminal : Bool) : LogState × Option String :=
  match findAcc rid s.accs with
  | none => (s, none)
  | some a =>
    let fields := mergeFields a.fields (extractFields cfg.input_keyword p)
    if isTerminal then
      match a.parent with
      | some parentId =>
        if cfg.combine_all_actions_into_one_log then
          let rootId := rootOf s.accs s.accs.length parentId
          let accs' := updateAcc (removeAcc s.accs rid) rootId
            (fun pa => { pa with fields := mergeFields pa.fields fields })
          ({ s with accs := accs', clock := s.clock + 1 }, none)
        else
          finalizeRun cfg sinkOk human s rid fields p
      | none =>
        finalizeRun cfg sinkOk human s rid fields p
    else
      ({ s with
          accs := updateAcc s.accs rid (fun a' => { a' with fields := fields }),
          clock := s.clock + 1 }, none)

/-- Modelled from the spec: a lifecycle notification, "carrying a run identifier, a
step kind, and an opaque payload" (§6); start events additionally carry an explicit
parent identifier for nested sub-runs. -/
inductive Event where
  | stepStart (runId : Nat) (parent : Option Nat) (payload : Payload)
  | stepEnd (runId : Nat) (payload : Payload) (isTerminal : Bool)
deriving Repr, DecidableEq

/-- One lifecycle notification routed to the tracker; returns the new state and the
error, if any, that the handler propagates to the orchestration graph. -/
def processEvent (cfg : Config) (sinkOk : Bool) (human : HumanEnv) (s : LogState) :
    Event → LogState × Option String
  | .stepStart rid parent p => (onStepStart cfg s rid parent p, none)
  | .stepEnd rid p t => onStepEnd cfg sinkOk human s rid p t

/-- Process a whole event sequence in order (single-threaded, synchronous per §5),
collecting every error propagated along the way: a propagated persistence failure
does not stop the tracker from serving subsequent events. -/
def processEvents (cfg : Config) (sinkOk : Bool) (human : HumanEnv) (s : LogState) :
    List Event → LogState × List String
  | [] => (s, [])
  | e :: es =>
    let r := processEvent cfg sinkOk human s e
    let rest := processEvents cfg sinkOk human r.1 es
    (rest.1, (match r.2 with | some err => [err] | none => []) ++ rest.2)

/-- The event sequence of a single run with no nested sub-runs: its start events in
order, then its terminal end event (§5 ordering guarantees). -/
def singleRunTrace (rid : Nat) (starts : List Payload) (endPayload : Payload) :
    List Event :=
  starts.map (fun p => Event.stepStart rid none p) ++ [Event.stepEnd rid endPayload true]

/-- Last-write-wins across a sequence of extracted field mappings: the value the
latest mapping binding the name gives it. -/
def lastWrite (k : String) : List Fields → Option String
  | [] => none
  | f :: fss =>
    match lastWrite k fss with
    | some w => some w
    | none => lookupLast k f

/-- The event sequence of the spec's canonical nested topology (§8): one retrieval
sub-run (run 1) nested inside one generation run (run 0). -/
def ragTrace (question : String) (passages : List String) (answer : String) :
    List Event :=
  [ Event.stepStart 0 none (Payload.chainStart [("question", question)]),
    Event.stepStart 1 (some 0) (Payload.unrecognized []),
    Event.stepEnd 1 (Payload.retrievalEnd passages) true,
    Event.stepEnd 0 (Payload.chainEnd answer) true ]

/-- A concrete configuration mirroring the sample notebooks' instantiation of the
callback, parameterized by the combine option. -/
def sampleConfig (combine : Bool) : Config :=
  { output_csv := true, request_rating := false, request_comments := false,
    user_name := "yourUserName", experiment_name := "experiment_name",
    path := "out/", input_keyword := "question",
    combine_all_actions_into_one_log := combine }

/-- A concrete human operator used to instantiate universally quantified
statements. -/
def sampleHuman : HumanEnv := ⟨"5", "looks good"⟩

/-- The input-column set discovered across a record list, in first-seen order. -/
def firstSeenCols (rs : List Record) : List String :=
  rs.foldl (fun cols r => widenCols cols r.inputs) []

/-- Hand a list of Records to the sink one after the other, starting from a given
file state, stopping at the first failure. -/
def appendAll (cfg : Config) (file : Option CsvFile) :
    List Record → Except String (Option CsvFile)
  | [] => .ok file
  | r :: rs =>
    match sinkAppend cfg true file r with
    | .ok f' => appendAll cfg f' rs
    | .error e => .error e

/-! ## Basic merge lemmas -/

theorem lookupField_setField (fs : Fields) (k k' v : String) :
    lookupField k (setField fs k' v) = if k' = k then some v else lookupField k fs := by
  induction fs with
  | nil =>
    simp only [setField, lookupField, List.lookup]
    by_cases h : k' = k
    · subst h
      simp
    · have hne : (k == k') = false := beq_eq_false_iff_ne.mpr (Ne.symm h)
      simp [hne, h]
  | cons kv rest ih =>
    obtain ⟨k₀, v₀⟩ := kv
    simp only [setField]
    by_cases h0 : k₀ = k'
    · subst h0
      simp only [if_pos rfl, lookupField, List.lookup]
      by_cases h : k₀ = k
      · subst h
        simp
      · have hne : (k == k₀) = false := beq_eq_false_iff_ne.mpr (Ne.symm h)
        simp [lookupField, List.lookup, hne, h]
    · rw [if_neg h0]
      simp only [lookupField, List.lookup]
      by_cases hk0 : k₀ = k
      · subst hk0
        simp only [beq_self_eq_true]
        rw [if_neg (fun he => h0 he.symm)]
      · have hne : (k == k₀) = false := beq_eq_false_iff_ne.mpr (Ne.symm hk0)
        simp only [hne]
        exact ih

theorem lookupField_mergeFields (new : Fields) (old : Fields) (k : String) :
    lookupField k (mergeFields old new) =
      match lookupLast k new with
      | some w => some w
      | none => lookupField k old := by
  induction new generalizing old with
  | nil => simp [mergeFields, lookupLast]
  | cons kv rest ih =>
    obtain ⟨k', v⟩ := kv
    have hstep : mergeFields old ((k', v) :: rest) = mergeFields (setField old k' v) rest := rfl
    rw [hstep, ih]
    cases hlast : lookupLast k rest with
    | some w => simp [lookupLast, hlast]
    | none =>
      by_cases h : k' = k <;>
        simp [lookupLast, hlast, lookupField_setField, h]

theorem lookupField_foldl_mergeFields (fss : List Fields) (acc : Fields) (k : String) :
    lookupField k (fss.foldl mergeFields acc) =
      match lastWrite k fss with
      | some w => some w
      | none => lookupField k acc := by
  induction fss generalizing acc with
  | nil => simp [lastWrite]
  | cons f rest ih =>
    simp only [List.foldl_cons]
    rw [ih]
    cases hrest : lastWrite k rest with
    | some w => simp [lastWrite, hrest]
    | none =>
      cases hf : lookupLast k f with
      | some w => simp [lastWrite, hrest, hf, lookupField_mergeFields]
      | none => simp [lastWrite, hrest, hf, lookupField_mergeFields]

theorem mergeFields_nil (fs : Fields) : mergeFields fs [] = fs := rfl

/-! ## Trace lemmas -/

theorem processEvents_append (cfg : Config) (ok : Bool) (human : HumanEnv)
    (l1 l2 : List Event) (s : LogState) :
    processEvents cfg ok human s (l1 ++ l2)
      = ((processEvents cfg ok human (processEvents cfg ok human s l1).1 l2).1,
         (processEvents cfg ok human s l1).2
           ++ (processEvents cfg ok human (processEvents cfg ok human s l1).1 l2).2) := by
  induction l1 generalizing s with
  | nil => simp [processEvents]
  | cons e es ih =>
    simp only [List.cons_append, processEvents, List.append_eq]
    rw [ih]
    simp [List.append_assoc]

theorem processEvents_starts (cfg : Config) (human : HumanEnv) (rid : Nat)
    (ps : List Payload) (fs : Fields) (P : List (Nat × Record)) (F : Option CsvFile)
    (c pc : Nat) :
    processEvents cfg true human ⟨[⟨rid, none, fs⟩], P, F, c, pc⟩
        (ps.map (fun p => Event.stepStart rid none p))
      = (⟨[⟨rid, none, (ps.map (extractFields cfg.input_keyword)).foldl mergeFields fs⟩],
          P, F, c + ps.length, pc⟩, []) := by
  induction ps generalizing fs c with
  | nil => simp [processEvents]
  | cons p rest ih =>
    simp only [List.map_cons, processEvents, processEvent]
    have h1 : onStepStart cfg ⟨[⟨rid, none, fs⟩], P, F, c, pc⟩ rid none p
        = ⟨[⟨rid, none, mergeFields fs (extractFields cfg.input_keyword p)⟩], P, F,
           c + 1, pc⟩ := by
      simp [onStepStart, findAcc, updateAcc, List.find?]
    rw [h1, ih]
    have hc : c + 1 + rest.length = c + (rest.length + 1) := by omega
    simp [List.foldl_cons, hc]

theorem singleRun_state (cfg : Config) (human : HumanEnv) (rid : Nat) (p0 : Payload)
    (ps : List Payload) (out : String) :
    ∃ rec : Record,
      rec = ⟨ps.length + 1,
             ((p0 :: ps).map (extractFields cfg.input_keyword)).foldl mergeFields [],
             out,
             (collectFeedback cfg human).1,
             (collectFeedback cfg human).2.1⟩
      ∧ (processEvents cfg true human initState
           (singleRunTrace rid (p0 :: ps) (Payload.chainEnd out))).1.persisted = [(rid, rec)]
      ∧ (processEvents cfg true human initState
           (singleRunTrace rid (p0 :: ps) (Payload.chainEnd out))).1.promptCount
          = (collectFeedback cfg human).2.2 := by
  have htr : singleRunTrace rid (p0 :: ps) (Payload.chainEnd out)
      = Event.stepStart rid none p0
          :: (ps.map (fun p => Event.stepStart rid none p)
              ++ [Event.stepEnd rid (Payload.chainEnd out) true]) := by
    simp [singleRunTrace]
  have h0 : onStepStart cfg initState rid none p0
      = ⟨[⟨rid, none, mergeFields [] (extractFields cfg.input_keyword p0)⟩],
         [], none, 1, 0⟩ := by
    simp [onStepStart, initState, findAcc, List.find?]
  have hflds : (ps.map (extractFields cfg.input_keyword)).foldl mergeFields
        (mergeFields [] (extractFields cfg.input_keyword p0))
      = ((p0 :: ps).map (extractFields cfg.input_keyword)).foldl mergeFields [] := by
    simp [List.foldl_cons]
  set flds := ((p0 :: ps).map (extractFields cfg.input_keyword)).foldl mergeFields []
    with hflds_def
  have hmid : processEvents cfg true human initState
        (singleRunTrace rid (p0 :: ps) (Payload.chainEnd out))
      = processEvents cfg true human ⟨[⟨rid, none, flds⟩], [], none, 1 + ps.length, 0⟩
          [Event.stepEnd rid (Payload.chainEnd out) true] := by
    rw [htr]
    simp only [processEvents, processEvent]
    rw [h0]
    rw [processEvents_append]
    rw [processEvents_starts]
    simp [processEvents, processEvent, hflds, Nat.add_comm]
  refine ⟨⟨ps.length + 1, flds, out, (collectFeedback cfg human).1,
          (collectFeedback cfg human).2.1⟩, rfl, ?_, ?_⟩ <;>
  · rw [hmid]
    have hfind : findAcc rid [(⟨rid, none, flds⟩ : RunAccumulator)]
        = some ⟨rid, none, flds⟩ := by
      simp [findAcc, List.find?]
    cases hcsv : cfg.output_csv <;>
      simp [processEvents, processEvent, onStepEnd, hfind, finalizeRun, extractOutput,
        extractFields, mergeFields_nil, finalizeRecord, sinkAppend, hcsv, removeAcc,
        Nat.add_comm]

/-! ## Structural lemmas about the handlers -/

theorem onStepStart_persisted (cfg : Config) (s : LogState) (rid : Nat)
    (parent : Option Nat) (p : Payload) :
    (onStepStart cfg s rid parent p).persisted = s.persisted := rfl

theorem finalizeRun_persisted_cases (cfg : Config) (ok : Bool) (human : HumanEnv)
    (s : LogState) (rid : Nat) (flds : Fields) (p : Payload) :
    ∀ pr ∈ (finalizeRun cfg ok human s rid flds p).1.persisted,
      pr ∈ s.persisted ∨ (pr.1 = rid ∧ extractOutput p = some pr.2.output) := by
  intro pr hpr
  unfold finalizeRun at hpr
  split at hpr
  · exact Or.inl hpr
  · rename_i out hout
    split at hpr
    · rename_i file' hok
      simp only [List.mem_append, List.mem_singleton] at hpr
      rcases hpr with h | h
      · exact Or.inl h
      · subst h
        exact Or.inr ⟨rfl, hout⟩
    · exact Or.inl hpr

theorem onStepEnd_persisted_cases (cfg : Config) (ok : Bool) (human : HumanEnv)
    (s : LogState) (rid : Nat) (p : Payload) (t : Bool) :
    ∀ pr ∈ (onStepEnd cfg ok human s rid p t).1.persisted,
      pr ∈ s.persisted ∨ (t = true ∧ pr.1 = rid ∧ extractOutput p = some pr.2.output) := by
  intro pr hpr
  unfold onStepEnd at hpr
  split at hpr
  · exact Or.inl hpr
  · rename_i a hfind
    by_cases ht : t = true
    · rw [if_pos ht] at hpr
      split at hpr
      · rename_i pid hpar
        split at hpr
        · exact Or.inl hpr
        · rcases finalizeRun_persisted_cases cfg ok human s rid _ p pr hpr with h | ⟨h1, h2⟩
          · exact Or.inl h
          · exact Or.inr ⟨ht, h1, h2⟩
      · rcases finalizeRun_persisted_cases cfg ok human s rid _ p pr hpr with h | ⟨h1, h2⟩
        · exact Or.inl h
        · exact Or.inr ⟨ht, h1, h2⟩
    · rw [if_neg ht] at hpr
      exact Or.inl hpr

theorem processEvents_persisted_cases (cfg : Config) (ok : Bool) (human : HumanEnv)
    (evs : List Event) :
    ∀ (s : LogState) (pr : Nat × Record),
      pr ∈ (processEvents cfg ok human s evs).1.persisted →
      pr ∈ s.persisted
        ∨ ∃ q : Payload, Event.stepEnd pr.1 q true ∈ evs
            ∧ extractOutput q = some pr.2.output := by
  induction evs with
  | nil =>
    intro s pr hpr
    exact Or.inl hpr
  | cons e es ih =>
    intro s pr hpr
    have hpr' : pr ∈ (processEvents cfg ok human (processEvent cfg ok human s e).1 es).1.persisted := by
      simpa [processEvents] using hpr
    rcases ih (processEvent cfg ok human s e).1 pr hpr' with h | ⟨q, hq, hout⟩
    · cases e with
      | stepStart rid par p =>
        rw [show (processEvent cfg ok human s (Event.stepStart rid par p)).1
              = onStepStart cfg s rid par p from rfl,
           onStepStart_persisted] at h
        exact Or.inl h
      | stepEnd rid p t =>
        rcases onStepEnd_persisted_cases cfg ok human s rid p t pr h with h' | ⟨ht, h1, h2⟩
        · exact Or.inl h'
        · right
          refine ⟨p, ?_, h2⟩
          rw [h1, ← ht]
          exact List.mem_cons_self _ _
    · exact Or.inr ⟨q, List.mem_cons_of_mem _ hq, hout⟩

theorem findAcc_removeAcc (accs : List RunAccumulator) (rid : Nat) :
    findAcc rid (removeAcc accs rid) = none := by
  unfold findAcc removeAcc
  rw [List.find?_eq_none]
  intro a ha
  have h2 := (List.mem_filter.mp ha).2
  simp only [bne_iff_ne, ne_eq, decide_eq_true_eq] at h2
  simp [h2]

/-! ## Claims -/

/-- C1: for every single-run event sequence with no nested sub-runs that ends in a
terminal event, the persisted Record's inputs mapping equals the union, merged
left to right, of the field mappings extracted from every intervening start event;
per field name the persisted value is the one extracted by the latest event that
binds it (last write wins). -/
theorem single_run_inputs_last_write_wins (cfg : Config) (human : HumanEnv)
    (rid : Nat) (p0 : Payload) (ps : List Payload) (out : String) :
    ∃ rec : Record,
      (processEvents cfg true human initState
          (singleRunTrace rid (p0 :: ps) (Payload.chainEnd out))).1.persisted
        = [(rid, rec)]
      ∧ rec.inputs
          = ((p0 :: ps).map (extractFields cfg.input_keyword)).foldl mergeFields []
      ∧ rec.output = out
      ∧ ∀ k, lookupField k rec.inputs
          = lastWrite k ((p0 :: ps).map (extractFields cfg.input_keyword)) := by
  obtain ⟨rec, hrec, hpers, _⟩ := singleRun_state cfg human rid p0 ps out
  subst hrec
  refine ⟨_, hpers, rfl, rfl, ?_⟩
  intro k
  show lookupField k
      (((p0 :: ps).map (extractFields cfg.input_keyword)).foldl mergeFields []) = _
  rw [lookupField_foldl_mergeFields]
  cases lastWrite k ((p0 :: ps).map (extractFields cfg.input_keyword)) <;>
    simp [lookupField, List.lookup]

/-- C5: the Field Extractor is total and returns the empty mapping on every
unrecognized payload shape; merging such an extraction changes no accumulator
field, a lifecycle event carrying an unrecognized payload never propagates an
error to the caller, and processing its start event preserves every live
accumulator, so the run continues. -/
theorem unrecognized_payload_graceful (kw : String) (raw : Fields) :
    extractFields kw (Payload.unrecognized raw) = []
    ∧ extractOutput (Payload.unrecognized raw) = none
    ∧ (∀ fs : Fields, mergeFields fs (extractFields kw (Payload.unrecognized raw)) = fs)
    ∧ (∀ (cfg : Config) (ok : Bool) (human : HumanEnv) (s : LogState) (rid : Nat)
        (t : Bool), (onStepEnd cfg ok human s rid (Payload.unrecognized raw) t).2 = none)
    ∧ (∀ (cfg : Config) (s : LogState) (rid : Nat) (parent : Option Nat)
        (b : RunAccumulator), b ∈ s.accs →
          b ∈ (onStepStart cfg s rid parent (Payload.unrecognized raw)).accs) := by
  refine ⟨rfl, rfl, fun fs => rfl, ?_, ?_⟩
  · intro cfg ok human s rid t
    unfold onStepEnd
    cases hf : findAcc rid s.accs with
    | none => rfl
    | some a =>
      simp only
      cases t with
      | false => rfl
      | true =>
        cases hp : a.parent with
        | none => simp [finalizeRun, extractOutput]
        | some pid =>
          by_cases hc : cfg.combine_all_actions_into_one_log <;>
            simp [hc, finalizeRun, extractOutput]
  · intro cfg s rid parent b hb
    unfold onStepStart
    cases hf : findAcc rid s.accs with
    | none => simp [hb]
    | some a =>
      have hid : updateAcc s.accs rid
          (fun a' => { a' with
            fields := mergeFields a'.fields
              (extractFields cfg.input_keyword (Payload.unrecognized raw)) }) = s.accs := by
        unfold updateAcc
        have hpt : ∀ a' : RunAccumulator,
            (if (a'.runId == rid) = true then
              { a' with
                fields := mergeFields a'.fields
                  (extractFields cfg.input_keyword (Payload.unrecognized raw)) }
            else a') = a' := by
          intro a'
          split <;> rfl
        simp only [hpt, List.map_id']
      simp [hid, hb]

/-- C5 witness: an unrecognized payload extracts nothing, and a live accumulator
for run 3 survives a start event for run 9 carrying such a payload. -/
theorem unrecognized_payload_graceful_witness :
    extractFields "question" (Payload.unrecognized [("x", "1")]) = []
    ∧ (⟨3, none, [("question", "lions")]⟩ : RunAccumulator) ∈
        (onStepStart (sampleConfig true)
          ⟨[⟨3, none, [("question", "lions")]⟩], [], none, 1, 0⟩ 9 none
          (Payload.unrecognized [("x", "1")])).accs := by
  have h := unrecognized_payload_graceful "question" [("x", "1")]
  exact ⟨h.1, h.2.2.2.2 (sampleConfig true)
    ⟨[⟨3, none, [("question", "lions")]⟩], [], none, 1, 0⟩ 9 none
    ⟨3, none, [("question", "lions")]⟩ (by decide)⟩

/-- C6: a terminal end event for a run identifier with no live accumulator is an
ignorable no-op: no error is raised, nothing is persisted, and the whole tracker
state — in particular the live-accumulator set — is unchanged. -/
theorem terminal_without_accumulator_noop (cfg : Config) (ok : Bool)
    (human : HumanEnv) (s : LogState) (rid : Nat) (p : Payload)
    (h : findAcc rid s.accs = none) :
    onStepEnd cfg ok human s rid p true = (s, none) := by
  unfold onStepEnd
  rw [h]

/-- C6 witness: a terminal end event for run 5 arriving at the empty tracker is a
no-op. -/
theorem terminal_without_accumulator_noop_witness :
    onStepEnd (sampleConfig true) true sampleHuman initState 5
        (Payload.chainEnd "late") true = (initState, none) :=
  terminal_without_accumulator_noop (sampleConfig true) true sampleHuman initState 5
    (Payload.chainEnd "late") rfl

/-- C2: for every sequence of lifecycle events processed from the initial tracker
state, every Record handed to the Persistence Sink belongs to a run identifier for
which a terminal end event carrying an output was observed in the sequence, and
the Record's output field is exactly that observed output. -/
theorem persisted_requires_terminal_output (cfg : Config) (ok : Bool)
    (human : HumanEnv) (evs : List Event) (pr : Nat × Record)
    (hpr : pr ∈ (processEvents cfg ok human initState evs).1.persisted) :
    ∃ q : Payload, Event.stepEnd pr.1 q true ∈ evs
      ∧ extractOutput q = some pr.2.output := by
  rcases processEvents_persisted_cases cfg ok human evs initState pr hpr with h | h
  · simp [initState] at h
  · exact h

/-- C2 witness: the record persisted by a two-event run sequence is matched by its
terminal end event carrying the output. -/
theorem persisted_requires_terminal_output_witness :
    ∃ q : Payload,
      Event.stepEnd 0 q true ∈
        [Event.stepStart 0 none (Payload.chainStart [("question", "lions")]),
         Event.stepEnd 0 (Payload.chainEnd "joke") true]
      ∧ extractOutput q = some "joke" :=
  persisted_requires_terminal_output (sampleConfig true) true sampleHuman
    [Event.stepStart 0 none (Payload.chainStart [("question", "lions")]),
     Event.stepEnd 0 (Payload.chainEnd "joke") true]
    (0, ⟨1, [("question", "lions")], "joke", none, none⟩) (by decide)

/-- C4: when the sink fails on a terminal event that reaches the finalization path,
the terminal-event handler propagates the error to the caller, yet the failing
run's accumulator is removed from the live set: the resulting accumulator list is
exactly the old one with that run filtered out, so nothing leaks and other live
runs are untouched. -/
theorem persistence_failure_propagates_after_cleanup (cfg : Config)
    (human : HumanEnv) (s : LogState) (rid : Nat) (a : RunAccumulator) (p : Payload)
    (out : String)
    (hacc : findAcc rid s.accs = some a)
    (hroute : a.parent = none ∨ cfg.combine_all_actions_into_one_log = false)
    (hout : extractOutput p = some out)
    (hcsv : cfg.output_csv = true) :
    (onStepEnd cfg false human s rid p true).2 = some "persistence failure"
    ∧ (onStepEnd cfg false human s rid p true).1.accs = removeAcc s.accs rid
    ∧ findAcc rid (onStepEnd cfg false human s rid p true).1.accs = none := by
  have hrun : onStepEnd cfg false human s rid p true
      = finalizeRun cfg false human s rid
          (mergeFields a.fields (extractFields cfg.input_keyword p)) p := by
    obtain ⟨arid, apar, aflds⟩ := a
    unfold onStepEnd
    rw [hacc]
    simp only [if_true]
    rcases hroute with hp | hc
    · replace hp : apar = none := hp
      subst hp
      rfl
    · cases apar with
      | none => rfl
      | some pid => simp [hc]
  have hfin : finalizeRun cfg false human s rid
        (mergeFields a.fields (extractFields cfg.input_keyword p)) p
      = ({ s with
            accs := removeAcc s.accs rid,
            clock := s.clock + 1,
            promptCount := s.promptCount
              + (finalizeRecord cfg human s.clock
                  (mergeFields a.fields (extractFields cfg.input_keyword p)) out).2 },
         some "persistence failure") := by
    unfold finalizeRun
    rw [hout]
    simp [sinkAppend, hcsv]
  rw [hrun, hfin]
  exact ⟨rfl, rfl, findAcc_removeAcc s.accs rid⟩

/-- C4 witness: a failing sink on the terminal event of run 7 surfaces the error
while run 7's accumulator is cleaned up and the unrelated run 8 stays live. -/
theorem persistence_failure_propagates_after_cleanup_witness :
    (onStepEnd (sampleConfig true) false sampleHuman
        ⟨[⟨7, none, [("question", "lions")]⟩, ⟨8, none, []⟩], [], none, 2, 0⟩ 7
        (Payload.chainEnd "joke") true).2 = some "persistence failure"
    ∧ (onStepEnd (sampleConfig true) false sampleHuman
        ⟨[⟨7, none, [("question", "lions")]⟩, ⟨8, none, []⟩], [], none, 2, 0⟩ 7
        (Payload.chainEnd "joke") true).1.accs
        = removeAcc [⟨7, none, [("question", "lions")]⟩, ⟨8, none, []⟩] 7
    ∧ findAcc 7 (onStepEnd (sampleConfig true) false sampleHuman
        ⟨[⟨7, none, [("question", "lions")]⟩, ⟨8, none, []⟩], [], none, 2, 0⟩ 7
        (Payload.chainEnd "joke") true).1.accs = none :=
  persistence_failure_propagates_after_cleanup (sampleConfig true) sampleHuman
    ⟨[⟨7, none, [("question", "lions")]⟩, ⟨8, none, []⟩], [], none, 2, 0⟩ 7
    ⟨7, none, [("question", "lions")]⟩ (Payload.chainEnd "joke") "joke"
    (by decide) (Or.inl rfl) rfl rfl

/-- C7: with `output_csv = false` the sink's append is a no-op and processing any
event sequence leaves the sink's file exactly as it was: nothing is created and
nothing is modified. -/
theorem output_csv_false_no_file_change (cfg : Config) (ok : Bool)
    (human : HumanEnv) (evs : List Event) (s : LogState) (file : Option CsvFile)
    (r : Record) (h : cfg.output_csv = false) :
    sinkAppend cfg ok file r = Except.ok file
    ∧ ((processEvents cfg ok human s evs).1).file = s.file := by
  refine ⟨by simp [sinkAppend, h], ?_⟩
  induction evs generalizing s with
  | nil => rfl
  | cons e es ih =>
    have hstep : ((processEvent cfg ok human s e).1).file = s.file := by
      cases e with
      | stepStart rid par p => rfl
      | stepEnd rid p t =>
        show ((onStepEnd cfg ok human s rid p t).1).file = s.file
        unfold onStepEnd
        split
        · rfl
        · rename_i a hfind
          by_cases ht : t = true
          · rw [if_pos ht]
            have hfinalize : ∀ flds,
                ((finalizeRun cfg ok human s rid flds p).1).file = s.file := by
              intro flds
              unfold finalizeRun
              split
              · rfl
              · rename_i out hout
                split
                · rename_i file' hok
                  have hok' : Except.ok (ε := String) s.file = Except.ok file' := by
                    rw [← hok]
                    simp [sinkAppend, h]
                  have hfe : s.file = file' := by
                    injection hok'
                  show file' = s.file
                  exact hfe.symm
                · rfl
            split
            · rename_i pid hpar
              split
              · rfl
              · exact hfinalize _
            · exact hfinalize _
          · rw [if_neg ht]
    show ((processEvents cfg ok human (processEvent cfg ok human s e).1 es).1).file = s.file
    rw [ih (processEvent cfg ok human s e).1]
    exact hstep

/-- C7 witness: with the CSV output disabled, appending is the identity on the file
state and the canonical nested trace leaves the (absent) file untouched. -/
theorem output_csv_false_no_file_change_witness :
    sinkAppend { sampleConfig true with output_csv := false } true none
        ⟨0, [("question", "lions")], "joke", none, none⟩ = Except.ok none
    ∧ ((processEvents { sampleConfig true with output_csv := false } true sampleHuman
        initState (ragTrace "q" ["doc"] "a")).1).file = initState.file :=
  output_csv_false_no_file_change { sampleConfig true with output_csv := false }
    true sampleHuman (ragTrace "q" ["doc"] "a") initState none
    ⟨0, [("question", "lions")], "joke", none, none⟩ rfl

/-- C8: with `request_rating = true` and `request_comments = false` the Feedback
Collector issues exactly one blocking prompt and the finalized, persisted Record
carries the rating but an empty comments field; with both flags false,
finalization involves zero human interaction and both fields are absent. -/
theorem feedback_collection_flags (cfg cfg' : Config) (human : HumanEnv)
    (clock : Nat) (flds : Fields) (out : String) (rid : Nat) (p0 : Payload)
    (ps : List Payload)
    (h1 : cfg.request_rating = true) (h2 : cfg.request_comments = false)
    (h3 : cfg'.request_rating = false) (h4 : cfg'.request_comments = false) :
    (collectFeedback cfg human).2.2 = 1
    ∧ (finalizeRecord cfg human clock flds out).1.rating = some human.rating
    ∧ (finalizeRecord cfg human clock flds out).1.comments = none
    ∧ (processEvents cfg true human initState
        (singleRunTrace rid (p0 :: ps) (Payload.chainEnd out))).1.promptCount = 1
    ∧ (∃ rec : Record,
        (processEvents cfg true human initState
          (singleRunTrace rid (p0 :: ps) (Payload.chainEnd out))).1.persisted
          = [(rid, rec)]
        ∧ rec.comments = none ∧ rec.rating = some human.rating)
    ∧ (collectFeedback cfg' human).2.2 = 0
    ∧ (finalizeRecord cfg' human clock flds out).1.rating = none
    ∧ (finalizeRecord cfg' human clock flds out).1.comments = none := by
  have hcf : collectFeedback cfg human = (some human.rating, none, 1) := by
    simp [collectFeedback, h1, h2]
  have hcf' : collectFeedback cfg' human = (none, none, 0) := by
    simp [collectFeedback, h3, h4]
  obtain ⟨rec, hrec, hpers, hpc⟩ := singleRun_state cfg human rid p0 ps out
  refine ⟨by rw [hcf], by simp [finalizeRecord, hcf], by simp [finalizeRecord, hcf],
    by rw [hpc, hcf], ⟨rec, hpers, ?_, ?_⟩,
    by rw [hcf'], by simp [finalizeRecord, hcf'], by simp [finalizeRecord, hcf']⟩
  · rw [hrec]
    show (collectFeedback cfg human).2.1 = none
    rw [hcf]
  · rw [hrec]
    show (collectFeedback cfg human).1 = some human.rating
    rw [hcf]

/-- C8 witness: under a rating-only configuration exactly one prompt is issued and
the finalized record has empty comments; with both flags off, zero prompts. -/
theorem feedback_collection_flags_witness :
    (collectFeedback { sampleConfig true with request_rating := true } sampleHuman).2.2 = 1
    ∧ (finalizeRecord { sampleConfig true with request_rating := true } sampleHuman 0 []
        "out").1.comments = none
    ∧ (collectFeedback (sampleConfig true) sampleHuman).2.2 = 0 := by
  have h := feedback_collection_flags { sampleConfig true with request_rating := true }
    (sampleConfig true) sampleHuman 0 [] "out" 0 (Payload.chainStart []) []
    rfl rfl rfl rfl
  exact ⟨h.1, h.2.2.1, h.2.2.2.2.2.1⟩

/-- C9: every file the sink produces by successively appending a non-empty list of
Records, starting from no file, has a header row whose columns are `timestamp`
first, then the input field names discovered across the Records in first-seen
order, then `output`, `rating`, `comments` — and one data row per Record. -/
theorem persisted_file_layout (cfg : Config) (r0 : Record) (rs : List Record)
    (f : CsvFile) (hcsv : cfg.output_csv = true)
    (h : appendAll cfg none (r0 :: rs) = Except.ok (some f)) :
    f.header = "timestamp" :: (firstSeenCols (r0 :: rs) ++ ["output", "rating", "comments"])
    ∧ f.rows.length = (r0 :: rs).length := by
  have hgen : ∀ (rs' : List Record) (g f' : CsvFile),
      appendAll cfg (some g) rs' = Except.ok (some f') →
      f'.inputCols = rs'.foldl (fun cols r => widenCols cols r.inputs) g.inputCols
      ∧ f'.rows.length = g.rows.length + rs'.length := by
    intro rs'
    induction rs' with
    | nil =>
      intro g f' hh
      simp only [appendAll, Except.ok.injEq, Option.some.injEq] at hh
      subst hh
      exact ⟨rfl, rfl⟩
    | cons r rest ih =>
      intro g f' hh
      simp only [appendAll, sinkAppend, hcsv, if_true] at hh
      obtain ⟨hcols, hlen⟩ := ih (appendToFile (some g) r) f' hh
      refine ⟨hcols, ?_⟩
      rw [hlen]
      simp only [appendToFile, List.length_append, List.length_cons, List.length_nil]
      omega
  have h' : appendAll cfg (some (appendToFile none r0)) rs = Except.ok (some f) := by
    simpa [appendAll, sinkAppend, hcsv] using h
  obtain ⟨hcols, hlen⟩ := hgen rs (appendToFile none r0) f h'
  constructor
  · show "timestamp" :: (f.inputCols ++ ["output", "rating", "comments"]) = _
    rw [hcols]
    rfl
  · rw [hlen]
    show 1 + rs.length = rs.length + 1
    omega

/-- C9 witness: appending two records, the second of which introduces the new
field `top_k`, yields a header `timestamp, question, top_k, output, rating,
comments` and two data rows. -/
theorem persisted_file_layout_witness :
    (⟨["question", "top_k"],
      [["1", "lions", "joke", "", ""],
       ["2", "cats", "250", "joke2", "", ""]]⟩ : CsvFile).header
      = "timestamp" ::
          (firstSeenCols
              [⟨1, [("question", "lions")], "joke", none, none⟩,
               ⟨2, [("question", "cats"), ("top_k", "250")], "joke2", none, none⟩]
            ++ ["output", "rating", "comments"])
    ∧ (⟨["question", "top_k"],
        [["1", "lions", "joke", "", ""],
         ["2", "cats", "250", "joke2", "", ""]]⟩ : CsvFile).rows.length
      = ([⟨1, [("question", "lions")], "joke", none, none⟩,
          ⟨2, [("question", "cats"), ("top_k", "250")], "joke2", none, none⟩]
          : List Record).length :=
  persisted_file_layout (sampleConfig true)
    ⟨1, [("question", "lions")], "joke", none, none⟩
    [⟨2, [("question", "cats"), ("top_k", "250")], "joke2", none, none⟩]
    ⟨["question", "top_k"],
     [["1", "lions", "joke", "", ""],
      ["2", "cats", "250", "joke2", "", ""]]⟩
    rfl (by rfl)

/-- C3: for the topology of one retrieval sub-run nested inside one generation
run, the combine option decides the record granularity: enabled, exactly one
Record is persisted for the top-level run, carrying the parent's question field
and the sub-run's retrieved context; disabled, exactly two Records are persisted,
one per sub-run, each with its own inputs and output. -/
theorem combine_vs_separate_records (q : String) (ps : List String) (a : String)
    (human : HumanEnv) :
    (∃ rec : Record,
       (processEvents (sampleConfig true) true human initState (ragTrace q ps a)).1.persisted
         = [(0, rec)]
       ∧ lookupField "question" rec.inputs = some q
       ∧ lookupField "context" rec.inputs = some (String.intercalate " " ps)
       ∧ rec.output = a)
    ∧ (∃ recSub recTop : Record,
       (processEvents (sampleConfig false) true human initState (ragTrace q ps a)).1.persisted
         = [(1, recSub), (0, recTop)]
       ∧ recSub.inputs = [("context", String.intercalate " " ps)]
       ∧ recSub.output = String.intercalate " " ps
       ∧ recTop.inputs = [("question", q)]
       ∧ recTop.output = a) := by
  constructor
  · exact ⟨⟨3, [("question", q), ("context", String.intercalate " " ps)], a, none, none⟩,
      rfl, rfl, rfl, rfl⟩
  · exact ⟨⟨2, [("context", String.intercalate " " ps)], String.intercalate " " ps, none, none⟩,
      ⟨3, [("question", q)], a, none, none⟩, rfl, rfl, rfl, rfl, rfl⟩

/-- C10: a configuration constructed without explicitly supplying
`combine_all_actions_into_one_log` gets the documented default `true`, and under
that default the nested retrieval sub-run of the canonical topology is merged
into the parent record: exactly one Record is persisted. -/
theorem combine_option_defaults_true (human : HumanEnv) :
    ({ output_csv := true, request_rating := false, request_comments := false,
       user_name := "yourUserName", experiment_name := "experiment_name",
       path := "out/", input_keyword := "question" } : Config).combine_all_actions_into_one_log
      = true
    ∧ (processEvents
        { output_csv := true, request_rating := false, request_comments := false,
          user_name := "yourUserName", experiment_name := "experiment_name",
          path := "out/", input_keyword := "question" }
        true human initState (ragTrace "q" ["doc"] "a")).1.persisted.length = 1 := by
  exact ⟨rfl, rfl⟩

end ChainLog
